import Mathlib

/-!
Shallow embedding of the core of `src/components/sketch.tsx` (the Sketchy
drawing application): the capture state machine, the history store
(undo/redo), the compositor (`drawPath` / `redrawCanvas`) over an
idealized raster surface, and the PNG export (`downloadImage`).

The React component's `useState` hooks become the fields of `SketchState`;
each event handler becomes a pure state transformer.  The 2D canvas is
modelled as a function from integer pixel centers to `Option String`
(`none` = fully transparent, `some c` = the opaque color `c`); the stroked
polyline of `ctx.stroke()` with round caps and joins covers exactly the
pixels within distance `width/2` of one of its segments (a union of
capsules), computed with exact integer arithmetic.
-/

set_option autoImplicit false

namespace Sketchy

/-- `interface Point` (sketch.tsx lines 13-16); pixel coordinates. -/
structure Point where
  x : Int
  y : Int
deriving DecidableEq, Repr

/-- The `"pen" | "eraser"` union type of `DrawingPath.tool` (line 22). -/
inductive Tool where
  | pen
  | eraser
deriving DecidableEq, Repr

/-- `interface DrawingPath` (sketch.tsx lines 18-23). -/
structure DrawingPath where
  points : List Point
  color : String
  width : Nat
  tool : Tool
deriving DecidableEq, Repr

/-- The component state: one field per `useState` hook (lines 27-34). -/
structure SketchState where
  isDrawing : Bool
  currentPath : List Point
  paths : List DrawingPath
  undoStack : List (List DrawingPath)
  redoStack : List (List DrawingPath)
  currentColor : String
  brushSize : Nat
  currentTool : Tool
deriving DecidableEq, Repr

/-- The initial hook values (lines 27-34): nothing drawn, empty stacks,
black pen of size 3. -/
def initState : SketchState :=
  { isDrawing := false
    currentPath := []
    paths := []
    undoStack := []
    redoStack := []
    currentColor := "#000000"
    brushSize := 3
    currentTool := .pen }

/-- `startDrawing` (lines 117-121): set `isDrawing`, start `currentPath`
at the event point. -/
def startDrawing (p : Point) (s : SketchState) : SketchState :=
  { s with isDrawing := true, currentPath := [p] }

/-- `draw` (lines 123-128): ignored unless drawing, else append the event
point to `currentPath`. -/
def draw (p : Point) (s : SketchState) : SketchState :=
  if s.isDrawing = false then s
  else { s with currentPath := s.currentPath ++ [p] }

/-- The `DrawingPath` literal built in `stopDrawing` (lines 133-138) and
for the in-progress path in `redrawCanvas` (lines 103-108): the points so
far, with the LIVE settings; an eraser path gets color `"#000000"`. -/
def mkCurrentDrawingPath (pts : List Point) (s : SketchState) : DrawingPath :=
  { points := pts
    color := if s.currentTool = .eraser then "#000000" else s.currentColor
    width := s.brushSize
    tool := s.currentTool }

/-- `stopDrawing` (lines 130-147): bail out when not drawing or when
`currentPath` is empty; otherwise push the pre-mutation `paths` onto the
undo stack, clear the redo stack, append the finalized path, and reset the
capture state. -/
def stopDrawing (s : SketchState) : SketchState :=
  if s.isDrawing = false ∨ s.currentPath = [] then s
  else
    { s with
      undoStack := s.undoStack ++ [s.paths]
      redoStack := []
      paths := s.paths ++ [mkCurrentDrawingPath s.currentPath s]
      currentPath := []
      isDrawing := false }

/-- `clearCanvas` (lines 149-154): push `paths` onto the undo stack, clear
the redo stack, empty `paths` and `currentPath`. -/
def clearCanvas (s : SketchState) : SketchState :=
  { s with
    undoStack := s.undoStack ++ [s.paths]
    redoStack := []
    paths := []
    currentPath := [] }

/-- `undo` (lines 156-163): no-op on an empty undo stack; else the top of
the undo stack (the last element, `undoStack[undoStack.length - 1]`)
becomes `paths`, the displaced `paths` is pushed onto the redo stack, and
the undo stack loses its top (`slice(0, -1)`). -/
def undo (s : SketchState) : SketchState :=
  if s.undoStack = [] then s
  else
    { s with
      redoStack := s.redoStack ++ [s.paths]
      paths := s.undoStack.getLastD []
      undoStack := s.undoStack.dropLast }

/-- `redo` (lines 165-172): symmetric to `undo`. -/
def redo (s : SketchState) : SketchState :=
  if s.redoStack = [] then s
  else
    { s with
      undoStack := s.undoStack ++ [s.paths]
      paths := s.redoStack.getLastD []
      redoStack := s.redoStack.dropLast }

/-- `setCurrentTool` (via the toolbar buttons, lines 215 and 225). -/
def setCurrentTool (t : Tool) (s : SketchState) : SketchState :=
  { s with currentTool := t }

/-- `setCurrentColor` (via the palette, lines 241 and 251). -/
def setCurrentColor (c : String) (s : SketchState) : SketchState :=
  { s with currentColor := c }

/-- `adjustBrushSize` (lines 202-204): add `delta` and clamp to [1, 50]. -/
def adjustBrushSize (delta : Int) (s : SketchState) : SketchState :=
  { s with brushSize := (max 1 (min 50 ((s.brushSize : Int) + delta))).toNat }

/-! ### The raster surface -/

/-- A raster surface: each pixel is transparent (`none`) or holds an
opaque color. -/
abbrev Canvas := Point → Option String

/-- `ctx.clearRect(0, 0, canvas.width, canvas.height)` (line 95) makes
every pixel transparent. -/
def clearedCanvas : Canvas := fun _ => none

/-- The consecutive segments of the polyline traced by `moveTo`/`lineTo`
(lines 79-83). -/
def segments : List Point → List (Point × Point)
  | [] => []
  | [_] => []
  | a :: b :: rest => (a, b) :: segments (b :: rest)

/-- Whether pixel `p` is covered by the stroke of segment `[a, b]` at
line width `w` with round caps (`ctx.lineCap = "round"`, line 70): the
distance from `p` to the segment is at most `w / 2`, tested with exact
integer arithmetic (everything scaled by 4·|b−a|²). -/
def coversSegment (w : Nat) (a b p : Point) : Bool :=
  let dx := b.x - a.x
  let dy := b.y - a.y
  let apx := p.x - a.x
  let apy := p.y - a.y
  let dot := apx * dx + apy * dy
  let len2 := dx * dx + dy * dy
  if dot ≤ 0 then 4 * (apx * apx + apy * apy) ≤ (w : Int) * w
  else if len2 ≤ dot then
    let bpx := p.x - b.x
    let bpy := p.y - b.y
    4 * (bpx * bpx + bpy * bpy) ≤ (w : Int) * w
  else 4 * ((apx * apx + apy * apy) * len2 - dot * dot) ≤ (w : Int) * w * len2

/-- Whether pixel `p` lies under the stroked polyline of `path`: within
`width / 2` of some segment (round joins make the stroked region exactly
this union of capsules). -/
def coversPath (path : DrawingPath) (p : Point) : Bool :=
  (segments path.points).any fun ab => coversSegment path.width ab.1 ab.2 p

/-- `drawPath` (lines 63-88): paths with fewer than 2 points draw
nothing; otherwise the stroked polyline is composited onto the canvas
with `globalCompositeOperation` chosen from the tool (lines 73-77):
`"destination-out"` for the eraser (covered destination pixels become
transparent) and `"source-over"` for the pen (covered pixels take the
path's opaque color).  Uncovered pixels are untouched. -/
def drawPath (c : Canvas) (path : DrawingPath) : Canvas :=
  if path.points.length < 2 then c
  else fun p =>
    if coversPath path p then
      match path.tool with
      | .eraser => none
      | .pen => some path.color
    else c p

/-- `redrawCanvas` (lines 90-111): clear the surface, draw every
committed path in order, then, if the in-progress path has more than one
point, draw it last with the live tool settings. -/
def redrawCanvas (s : SketchState) : Canvas :=
  let base := s.paths.foldl drawPath clearedCanvas
  if 1 < s.currentPath.length then
    drawPath base (mkCurrentDrawingPath s.currentPath s)
  else base

/-- `downloadImage` (lines 174-200): fill a fresh buffer of the same size
with opaque white (`#ffffff`), then `drawImage` the live canvas on top
with default source-over compositing, so opaque pixels of the live
surface keep their color and transparent ones show the white fill.  The
component state is only read, never written; the pair returns the
exported image together with the (unchanged) state. -/
def downloadImage (s : SketchState) : (Point → String) × SketchState :=
  (fun p =>
    match redrawCanvas s p with
    | none => "#ffffff"
    | some c => c, s)

end Sketchy

namespace Sketchy

/-! ### History-store actions

`stopDrawing` performs the history mutation of a stroke commit inline
(lines 140-146); `commitStroke` is that mutation on its own, so that
sequences of commit/clear actions can be stated at the history-store
level.  `stopDrawing_eq_commitStroke` below ties it back to the source. -/

/-- The history effect of committing a finalized stroke (lines 140-146):
push the pre-mutation `paths` onto the undo stack, clear the redo stack,
append the stroke. -/
def commitStroke (path : DrawingPath) (s : SketchState) : SketchState :=
  { s with
    undoStack := s.undoStack ++ [s.paths]
    redoStack := []
    paths := s.paths ++ [path] }

/-- A mutating history action: a stroke commit or a canvas clear. -/
inductive HistAction where
  | commit (path : DrawingPath)
  | clear
deriving DecidableEq, Repr

/-- Apply one history action. -/
def applyHistAction (s : SketchState) : HistAction → SketchState
  | .commit path => commitStroke path s
  | .clear => clearCanvas s

/-- Apply a sequence of history actions in order. -/
def applyHistActions (s : SketchState) (acts : List HistAction) : SketchState :=
  acts.foldl applyHistAction s

/-- Press undo `n` times. -/
def undoN : Nat → SketchState → SketchState
  | 0, s => s
  | n + 1, s => undoN n (undo s)

/-- Press redo `n` times. -/
def redoN : Nat → SketchState → SketchState
  | 0, s => s
  | n + 1, s => redoN n (redo s)

/-- A toolbar settings action (tool / color / brush size). -/
inductive SettingAction where
  | setTool (t : Tool)
  | setColor (c : String)
  | adjustSize (d : Int)
deriving DecidableEq, Repr

/-- Apply one settings action. -/
def applySetting (s : SketchState) : SettingAction → SketchState
  | .setTool t => setCurrentTool t s
  | .setColor c => setCurrentColor c s
  | .adjustSize d => adjustBrushSize d s

/-! ### Basic lemmas about the operations -/

/-- `stopDrawing` on an active nonempty capture is exactly a stroke
commit of the live path followed by resetting the capture fields. -/
theorem stopDrawing_eq_commitStroke (s : SketchState)
    (h1 : s.isDrawing = true) (h2 : s.currentPath ≠ []) :
    stopDrawing s =
      { commitStroke (mkCurrentDrawingPath s.currentPath s) s with
        currentPath := [], isDrawing := false } := by
  cases s
  simp_all [stopDrawing, commitStroke]

/-- `undo` on a stack ending in `top` pops `top` into `paths` and pushes
the displaced `paths` onto the redo stack. -/
theorem undo_concat (s : SketchState) (front : List (List DrawingPath))
    (top : List DrawingPath) (h : s.undoStack = front ++ [top]) :
    undo s =
      { s with
        paths := top
        undoStack := front
        redoStack := s.redoStack ++ [s.paths] } := by
  cases s
  simp_all [undo]

/-- `redo` on a stack ending in `top` pops `top` into `paths` and pushes
the displaced `paths` onto the undo stack. -/
theorem redo_concat (s : SketchState) (front : List (List DrawingPath))
    (top : List DrawingPath) (h : s.redoStack = front ++ [top]) :
    redo s =
      { s with
        paths := top
        redoStack := front
        undoStack := s.undoStack ++ [s.paths] } := by
  cases s
  simp_all [redo]

/-- `redo` undoes `undo` whenever the undo stack is nonempty. -/
theorem redo_undo (s : SketchState) (h : s.undoStack ≠ []) :
    redo (undo s) = s := by
  rcases List.eq_nil_or_concat s.undoStack with h0 | ⟨front, top, hft⟩
  · exact absurd h0 h
  · rw [List.concat_eq_append] at hft
    cases s
    simp_all [undo, redo, List.getLastD_concat, List.dropLast_concat]

end Sketchy

namespace Sketchy

/-- Pressing undo `n + 1` times is pressing it `n` times and then once
more. -/
theorem undoN_succ_eq_undo_undoN (n : Nat) (s : SketchState) :
    undoN (n + 1) s = undo (undoN n s) := by
  induction n generalizing s with
  | zero => rfl
  | succ m ih =>
    show undoN (m + 1) (undo s) = undo (undoN (m + 1) s)
    rw [ih (undo s)]
    rfl

/-- Each effective undo shortens the undo stack by one. -/
theorem undoN_undoStack_length (n : Nat) (s : SketchState)
    (h : n ≤ s.undoStack.length) :
    (undoN n s).undoStack.length = s.undoStack.length - n := by
  induction n generalizing s with
  | zero => rfl
  | succ m ih =>
    have hne : s.undoStack ≠ [] := by
      intro h0
      rw [h0] at h
      simp at h
    have hstep : (undo s).undoStack.length = s.undoStack.length - 1 := by
      rcases List.eq_nil_or_concat s.undoStack with h0 | ⟨front, top, hft⟩
      · exact absurd h0 hne
      · rw [List.concat_eq_append] at hft
        rw [undo_concat s front top hft, hft]
        simp
    show (undoN m (undo s)).undoStack.length = s.undoStack.length - (m + 1)
    rw [ih (undo s) (by omega), hstep]
    omega

/-- Round trip: `n` redos after `n` undos restore the state exactly, as
long as the undo stack held at least `n` snapshots. -/
theorem redoN_undoN (n : Nat) (s : SketchState)
    (h : n ≤ s.undoStack.length) :
    redoN n (undoN n s) = s := by
  induction n generalizing s with
  | zero => rfl
  | succ m ih =>
    have hlen : (undoN m s).undoStack.length = s.undoStack.length - m :=
      undoN_undoStack_length m s (by omega)
    have hne : (undoN m s).undoStack ≠ [] := by
      intro h0
      rw [h0] at hlen
      simp at hlen
      omega
    rw [undoN_succ_eq_undo_undoN]
    show redoN m (redo (undo (undoN m s))) = s
    rw [redo_undo (undoN m s) hne]
    exact ih s (by omega)

/-- Exhausting the whole undo stack leaves `paths` at the oldest snapshot
(the stack's head; `paths` itself if the stack is empty) and empties the
stack. -/
theorem undoN_length_undoStack (l : List (List DrawingPath))
    (s : SketchState) (h : s.undoStack = l) :
    (undoN l.length s).paths = l.headD s.paths ∧
      (undoN l.length s).undoStack = [] := by
  induction l using List.reverseRecOn generalizing s with
  | nil => exact ⟨rfl, h⟩
  | append_singleton front top ih =>
    have hstep : undo s =
        { s with
          paths := top
          undoStack := front
          redoStack := s.redoStack ++ [s.paths] } :=
      undo_concat s front top h
    have hlen : (front ++ [top]).length = front.length + 1 := by simp
    rw [hlen]
    show (undoN front.length (undo s)).paths = (front ++ [top]).headD s.paths ∧
      (undoN front.length (undo s)).undoStack = []
    obtain ⟨ih1, ih2⟩ := ih (undo s) (by rw [hstep])
    refine ⟨?_, ih2⟩
    rw [ih1, hstep]
    cases front <;> simp

/-- Invariant of a run of history actions from the initial state: the
undo stack holds one snapshot per action, its oldest snapshot is the
empty drawing, and the redo stack is empty. -/
theorem applyHistActions_invariant (acts : List HistAction) :
    (applyHistActions initState acts).undoStack.length = acts.length ∧
      (applyHistActions initState acts).undoStack.headD
        (applyHistActions initState acts).paths = [] ∧
      (applyHistActions initState acts).redoStack = [] := by
  induction acts using List.reverseRecOn with
  | nil => exact ⟨rfl, rfl, rfl⟩
  | append_singleton front act ih =>
    obtain ⟨ih1, ih2, ih3⟩ := ih
    have hsplit : applyHistActions initState (front ++ [act]) =
        applyHistAction (applyHistActions initState front) act := by
      simp [applyHistActions]
    rw [hsplit]
    set s := applyHistActions initState front with hs
    have hfields : (applyHistAction s act).undoStack = s.undoStack ++ [s.paths] ∧
        (applyHistAction s act).redoStack = [] := by
      cases act <;> simp [applyHistAction, commitStroke, clearCanvas]
    obtain ⟨hu, hr⟩ := hfields
    refine ⟨?_, ?_, hr⟩
    · rw [hu]
      simp [ih1]
    · rw [hu]
      cases hstack : s.undoStack with
      | nil =>
        rw [hstack] at ih2
        simp only [List.headD_nil] at ih2
        simp only [List.nil_append, List.headD_cons]
        exact ih2
      | cons a rest =>
        rw [hstack] at ih2
        simp only [List.headD_cons] at ih2
        simp only [List.cons_append, List.headD_cons]
        exact ih2

end Sketchy

namespace Sketchy

/-- While the capture is active, a run of `draw` events appends all the
sampled points to `currentPath` and changes nothing else. -/
theorem foldl_draw_of_isDrawing (ms : List Point) (s : SketchState)
    (h : s.isDrawing = true) :
    ms.foldl (fun st r => draw r st) s =
      { s with currentPath := s.currentPath ++ ms } := by
  induction ms generalizing s with
  | nil => simp
  | cons a as ih =>
    have hd : draw a s = { s with currentPath := s.currentPath ++ [a] } := by
      simp [draw, h]
    show as.foldl (fun st r => draw r st) (draw a s) = _
    rw [hd, ih { s with currentPath := s.currentPath ++ [a] } h]
    simp

/-- Settings actions touch only the tool-settings fields: the capture
fields, the drawing and the history stacks are untouched. -/
theorem foldl_applySetting_fields (changes : List SettingAction)
    (s : SketchState) :
    (changes.foldl applySetting s).isDrawing = s.isDrawing ∧
      (changes.foldl applySetting s).currentPath = s.currentPath ∧
      (changes.foldl applySetting s).paths = s.paths ∧
      (changes.foldl applySetting s).undoStack = s.undoStack ∧
      (changes.foldl applySetting s).redoStack = s.redoStack := by
  induction changes generalizing s with
  | nil => exact ⟨rfl, rfl, rfl, rfl, rfl⟩
  | cons a as ih =>
    have hone : (applySetting s a).isDrawing = s.isDrawing ∧
        (applySetting s a).currentPath = s.currentPath ∧
        (applySetting s a).paths = s.paths ∧
        (applySetting s a).undoStack = s.undoStack ∧
        (applySetting s a).redoStack = s.redoStack := by
      cases a <;>
        simp [applySetting, setCurrentTool, setCurrentColor, adjustBrushSize]
    obtain ⟨h1, h2, h3, h4, h5⟩ := hone
    obtain ⟨g1, g2, g3, g4, g5⟩ := ih (applySetting s a)
    exact ⟨g1.trans h1, g2.trans h2, g3.trans h3, g4.trans h4, g5.trans h5⟩

/-- Drawing a list of paths leaves every pixel covered by none of them
untouched. -/
theorem foldl_drawPath_of_uncovered (ps : List DrawingPath) (c : Canvas)
    (p : Point) (h : ∀ q ∈ ps, coversPath q p = false) :
    (ps.foldl drawPath c) p = c p := by
  induction ps generalizing c with
  | nil => rfl
  | cons q qs ih =>
    have hq : coversPath q p = false := h q (by simp)
    have hrest : ∀ r ∈ qs, coversPath r p = false := fun r hr =>
      h r (by simp [hr])
    show (qs.foldl drawPath (drawPath c q)) p = c p
    rw [ih (drawPath c q) hrest]
    by_cases hlen : q.points.length < 2
    · simp [drawPath, hlen]
    · simp [drawPath, hlen, hq]

end Sketchy

namespace Sketchy

/-- C1: the stroke-drawing primitive selects the compositing mode from
the stroke's tool: on every covered pixel an ERASER stroke erases the
destination to transparent (destination-out) while a PEN stroke paints
its opaque color (source-over); consequently an eraser stroke drawn over
a pen stroke leaves the covered pixels transparent, whatever was painted
below. -/
theorem claim1_drawPath_compositing_by_tool (c : Canvas) (path : DrawingPath)
    (p : Point) (hlen : 2 ≤ path.points.length)
    (hcov : coversPath path p = true) :
    drawPath c path p = (if path.tool = .eraser then none else some path.color) ∧
      (path.tool = .eraser → ∀ (c₀ : Canvas) (penPath : DrawingPath),
        drawPath (drawPath c₀ penPath) path p = none) := by
  have h2 : ¬ path.points.length < 2 := by omega
  constructor
  · simp only [drawPath, if_neg h2, hcov, if_true]
    cases path.tool <;> simp
  · intro ht c₀ penPath
    simp only [drawPath, if_neg h2, hcov, if_true, ht]

/-- Concrete run of C1: a red pen stroke along the x-axis, then an eraser
stroke over it; the pixel (5, 1) under both ends up transparent. -/
theorem claim1_witness :
    drawPath
      (drawPath clearedCanvas
        (⟨[⟨0, 0⟩, ⟨10, 0⟩], "#FF0000", 4, .pen⟩ : DrawingPath))
      (⟨[⟨0, 0⟩, ⟨10, 0⟩], "#000000", 4, .eraser⟩ : DrawingPath)
      ⟨5, 1⟩ = none :=
  (claim1_drawPath_compositing_by_tool clearedCanvas
    (⟨[⟨0, 0⟩, ⟨10, 0⟩], "#000000", 4, .eraser⟩ : DrawingPath)
    ⟨5, 1⟩ (by decide) (by decide)).2 rfl clearedCanvas
    (⟨[⟨0, 0⟩, ⟨10, 0⟩], "#FF0000", 4, .pen⟩ : DrawingPath)

/-- C6: `undo` on an empty undo stack and `redo` on an empty redo stack
are complete no-ops; otherwise `undo` pops the top of the undo stack into
`paths` and pushes the displaced `paths` onto the redo stack, and `redo`
does the symmetric operation. -/
theorem claim6_undo_redo_semantics (s : SketchState) :
    (s.undoStack = [] → undo s = s) ∧
      (s.redoStack = [] → redo s = s) ∧
      (∀ front top, s.undoStack = front ++ [top] →
        undo s =
          { s with
            paths := top
            undoStack := front
            redoStack := s.redoStack ++ [s.paths] }) ∧
      (∀ front top, s.redoStack = front ++ [top] →
        redo s =
          { s with
            paths := top
            redoStack := front
            undoStack := s.undoStack ++ [s.paths] }) := by
  refine ⟨?_, ?_, ?_, ?_⟩
  · intro h
    simp [undo, h]
  · intro h
    simp [redo, h]
  · intro front top h
    exact undo_concat s front top h
  · intro front top h
    exact redo_concat s front top h

/-- Concrete run of C6: both no-op cases on the initial state, and both
pop cases on singleton stacks. -/
theorem claim6_witness :
    undo initState = initState ∧
      redo initState = initState ∧
      (undo { initState with
        undoStack :=
          [[(⟨[⟨0, 0⟩, ⟨1, 1⟩], "#FF0000", 5, .pen⟩ : DrawingPath)]] }).paths =
        [(⟨[⟨0, 0⟩, ⟨1, 1⟩], "#FF0000", 5, .pen⟩ : DrawingPath)] ∧
      (redo { initState with
        redoStack :=
          [[(⟨[⟨2, 2⟩, ⟨3, 3⟩], "#0000FF", 7, .eraser⟩ : DrawingPath)]] }).paths =
        [(⟨[⟨2, 2⟩, ⟨3, 3⟩], "#0000FF", 7, .eraser⟩ : DrawingPath)] := by
  refine ⟨(claim6_undo_redo_semantics initState).1 rfl,
    (claim6_undo_redo_semantics initState).2.1 rfl, ?_, ?_⟩
  · rw [(claim6_undo_redo_semantics _).2.2.1 []
      [(⟨[⟨0, 0⟩, ⟨1, 1⟩], "#FF0000", 5, .pen⟩ : DrawingPath)] rfl]
  · rw [(claim6_undo_redo_semantics _).2.2.2 []
      [(⟨[⟨2, 2⟩, ⟨3, 3⟩], "#0000FF", 7, .eraser⟩ : DrawingPath)] rfl]

/-- C8: `clearCanvas` always pushes the pre-mutation `paths` onto the
undo stack, clears the redo stack and empties `paths` — even when
`paths` is already empty — and a subsequent `undo` restores `paths` and
returns the undo stack to its prior depth. -/
theorem claim8_clear_recorded_undoable (s : SketchState) :
    (clearCanvas s).paths = [] ∧
      (clearCanvas s).undoStack = s.undoStack ++ [s.paths] ∧
      (clearCanvas s).redoStack = [] ∧
      (undo (clearCanvas s)).paths = s.paths ∧
      (undo (clearCanvas s)).undoStack = s.undoStack ∧
      (s.paths = [] →
        (undo (clearCanvas s)).paths = [] ∧
          (undo (clearCanvas s)).undoStack.length = s.undoStack.length) := by
  have hu : undo (clearCanvas s) =
      { clearCanvas s with
        paths := s.paths
        undoStack := s.undoStack
        redoStack := (clearCanvas s).redoStack ++ [(clearCanvas s).paths] } :=
    undo_concat (clearCanvas s) s.undoStack s.paths rfl
  refine ⟨rfl, rfl, rfl, ?_, ?_, ?_⟩
  · rw [hu]
  · rw [hu]
  · intro h
    rw [hu]
    exact ⟨h, rfl⟩

/-- Concrete run of C8: clearing the already-empty initial canvas is
recorded and undoable. -/
theorem claim8_witness :
    (clearCanvas initState).paths = [] ∧
      (clearCanvas initState).undoStack = [[]] ∧
      (undo (clearCanvas initState)).paths = [] ∧
      (undo (clearCanvas initState)).undoStack.length = 0 := by
  obtain ⟨h1, h2, -, -, -, h6⟩ := claim8_clear_recorded_undoable initState
  obtain ⟨h7, h8⟩ := h6 rfl
  exact ⟨h1, h2, h7, h8⟩

end Sketchy

namespace Sketchy

/-- C2: starting from the initial empty history store, after any sequence
of N commit/clear actions, N undos bring `paths` back to the empty
drawing, and N further redos restore the final drawing exactly. -/
theorem claim2_history_round_trip (acts : List HistAction) :
    (undoN acts.length (applyHistActions initState acts)).paths = [] ∧
      (redoN acts.length
          (undoN acts.length (applyHistActions initState acts))).paths =
        (applyHistActions initState acts).paths := by
  obtain ⟨hlen, hhead, -⟩ := applyHistActions_invariant acts
  set s := applyHistActions initState acts with hs
  constructor
  · rw [← hlen]
    rw [(undoN_length_undoStack s.undoStack s rfl).1]
    exact hhead
  · rw [redoN_undoN acts.length s (by rw [hlen])]

/-- C5: committing a stroke (pointer-down, at least one move, pointer-up)
performed after an undo empties the redo stack, and a subsequent redo is
a complete no-op. -/
theorem claim5_commit_after_undo_invalidates_redo (s : SketchState)
    (p q : Point) (moves : List Point) :
    (stopDrawing (moves.foldl (fun st r => draw r st)
        (draw q (startDrawing p (undo s))))).redoStack = [] ∧
      redo (stopDrawing (moves.foldl (fun st r => draw r st)
          (draw q (startDrawing p (undo s))))) =
        stopDrawing (moves.foldl (fun st r => draw r st)
          (draw q (startDrawing p (undo s)))) := by
  have h1 : (draw q (startDrawing p (undo s))).isDrawing = true := by
    simp [draw, startDrawing]
  rw [foldl_draw_of_isDrawing moves (draw q (startDrawing p (undo s))) h1]
  simp [stopDrawing, draw, startDrawing, redo]

/-- C3 is refuted on the code: pointer-down at (5, 5) followed
immediately by pointer-up leaves fewer than 2 pending points, yet
`stopDrawing` still commits — both `paths` and the undo stack change
(`stopDrawing` only discards when `currentPath.length === 0`). -/
theorem claim3_counterexample :
    (startDrawing ⟨5, 5⟩ initState).currentPath.length < 2 ∧
      (stopDrawing (startDrawing ⟨5, 5⟩ initState)).paths ≠
        (startDrawing ⟨5, 5⟩ initState).paths ∧
      (stopDrawing (startDrawing ⟨5, 5⟩ initState)).undoStack ≠
        (startDrawing ⟨5, 5⟩ initState).undoStack := by
  decide

/-- C3 amended: a pointer-down + pointer-up capture with no intervening
move COMMITS a one-point stroke — `paths` gains the single-point path,
the pre-mutation `paths` is pushed onto the undo stack and the redo stack
is cleared; the committed path renders nothing (the primitive skips paths
with fewer than 2 points), and only a capture whose pending path is empty
is discarded with no mutation. -/
theorem claim3_amended_single_point_commits (p : Point) (s : SketchState) :
    stopDrawing (startDrawing p s) =
      { s with
        isDrawing := false
        currentPath := []
        paths := s.paths ++ [mkCurrentDrawingPath [p] s]
        undoStack := s.undoStack ++ [s.paths]
        redoStack := [] } ∧
      (∀ c : Canvas, drawPath c (mkCurrentDrawingPath [p] s) = c) ∧
      (∀ t : SketchState, t.currentPath = [] → stopDrawing t = t) := by
  refine ⟨?_, ?_, ?_⟩
  · cases s
    simp [startDrawing, stopDrawing, mkCurrentDrawingPath]
  · intro c
    simp [drawPath, mkCurrentDrawingPath]
  · intro t ht
    simp [stopDrawing, ht]

/-- Concrete run of amended C3: the tap at (5, 5) on the fresh canvas. -/
theorem claim3_witness :
    stopDrawing (startDrawing ⟨5, 5⟩ initState) =
      { initState with
        isDrawing := false
        currentPath := []
        paths := initState.paths ++ [mkCurrentDrawingPath [⟨5, 5⟩] initState]
        undoStack := initState.undoStack ++ [initState.paths]
        redoStack := [] } ∧
      drawPath clearedCanvas (mkCurrentDrawingPath [⟨5, 5⟩] initState) =
        clearedCanvas ∧
      stopDrawing initState = initState :=
  ⟨(claim3_amended_single_point_commits ⟨5, 5⟩ initState).1,
    (claim3_amended_single_point_commits ⟨5, 5⟩ initState).2.1 clearedCanvas,
    (claim3_amended_single_point_commits ⟨5, 5⟩ initState).2.2 initState rfl⟩

/-- C4 is refuted on the code: changing the color mid-stroke DOES reach
the committed stroke.  Down at (0,0) with the initial black pen, one move
to (1,1), then the color is switched to red before pointer-up: the
committed stroke is red, not the black that was current at
pointer-down. -/
theorem claim4_counterexample :
    (stopDrawing (setCurrentColor "#FF0000"
        (draw ⟨1, 1⟩ (startDrawing ⟨0, 0⟩ initState)))).paths =
      [(⟨[⟨0, 0⟩, ⟨1, 1⟩], "#FF0000", 3, .pen⟩ : DrawingPath)] ∧
      initState.currentColor = "#000000" := by
  decide

/-- C4 amended: the pending stroke's attributes are read at COMMIT time
(pointer-up), not snapshotted at pointer-down: after any settings changes
made mid-stroke, the committed stroke carries the color, width and tool
that are current at pointer-up. -/
theorem claim4_amended_settings_read_at_commit (p q : Point)
    (s : SketchState) (changes : List SettingAction) :
    (stopDrawing (changes.foldl applySetting
        (draw q (startDrawing p s)))).paths =
      s.paths ++
        [mkCurrentDrawingPath [p, q]
          (changes.foldl applySetting (draw q (startDrawing p s)))] := by
  obtain ⟨f1, f2, f3, -, -⟩ :=
    foldl_applySetting_fields changes (draw q (startDrawing p s))
  set mid := changes.foldl applySetting (draw q (startDrawing p s)) with hmid
  have h2 : mid.currentPath = [p, q] := by
    rw [f2]
    simp [draw, startDrawing]
  have h3 : mid.paths = s.paths := by
    rw [f3]
    simp [draw, startDrawing]
  have h4 : mid.isDrawing = true := by
    rw [f1]
    simp [draw, startDrawing]
  rw [show stopDrawing mid =
      { mid with
        undoStack := mid.undoStack ++ [mid.paths]
        redoStack := []
        paths := mid.paths ++ [mkCurrentDrawingPath mid.currentPath mid]
        currentPath := []
        isDrawing := false } by simp [stopDrawing, h4, h2]]
  show mid.paths ++ [mkCurrentDrawingPath mid.currentPath mid] =
    s.paths ++ [mkCurrentDrawingPath [p, q] mid]
  rw [h2, h3]

end Sketchy

namespace Sketchy

/-- C7: the render pipeline composites over a cleared surface — the
stroke primitive draws nothing for fewer than 2 points, a pixel covered
by no committed stroke (and not by a live 2-point stroke) is transparent,
an in-progress stroke with at least 2 points is drawn last with the live
tool attributes and so wins on every pixel it covers, and a last-committed
stroke wins over the earlier ones on every pixel it covers. -/
theorem claim7_render_pipeline (s : SketchState) (p : Point) :
    (∀ (c : Canvas) (q : DrawingPath), q.points.length < 2 →
      drawPath c q = c) ∧
      ((∀ q ∈ s.paths, coversPath q p = false) →
        (s.currentPath.length ≤ 1 ∨
          coversPath (mkCurrentDrawingPath s.currentPath s) p = false) →
        redrawCanvas s p = none) ∧
      (1 < s.currentPath.length →
        coversPath (mkCurrentDrawingPath s.currentPath s) p = true →
        redrawCanvas s p =
          (if s.currentTool = .eraser then none
            else some (mkCurrentDrawingPath s.currentPath s).color)) ∧
      (∀ (front : List DrawingPath) (q : DrawingPath),
        s.paths = front ++ [q] → 2 ≤ q.points.length →
        coversPath q p = true → s.currentPath.length ≤ 1 →
        redrawCanvas s p = (if q.tool = .eraser then none else some q.color)) := by
  refine ⟨?_, ?_, ?_, ?_⟩
  · intro c q h
    simp [drawPath, h]
  · intro hall hcur
    have hbase : (s.paths.foldl drawPath clearedCanvas) p = none :=
      foldl_drawPath_of_uncovered s.paths clearedCanvas p hall
    by_cases hlen : 1 < s.currentPath.length
    · rcases hcur with hle | hcov
      · omega
      · have h2 : ¬ (mkCurrentDrawingPath s.currentPath s).points.length < 2 := by
          simp only [mkCurrentDrawingPath]
          omega
        simp only [redrawCanvas, if_pos hlen, drawPath, if_neg h2, hcov]
        simpa using hbase
    · simp only [redrawCanvas, if_neg hlen]
      exact hbase
  · intro hlen hcov
    have h2 : ¬ (mkCurrentDrawingPath s.currentPath s).points.length < 2 := by
      simp only [mkCurrentDrawingPath]
      omega
    simp only [redrawCanvas, if_pos hlen, drawPath, if_neg h2, hcov, if_true]
    cases htool : s.currentTool <;> simp [mkCurrentDrawingPath, htool]
  · intro front q hfq h2 hcov hle
    have hlen : ¬ 1 < s.currentPath.length := by omega
    have h2' : ¬ q.points.length < 2 := by omega
    simp only [redrawCanvas, if_neg hlen, hfq, List.foldl_append,
      List.foldl_cons, List.foldl_nil, drawPath, if_neg h2', hcov]
    cases q.tool <;> simp

/-- Concrete runs of C7: a 1-point path draws nothing; the empty drawing
renders transparent; an in-progress eraser wins over a committed red pen
stroke at (5, 1); a committed red pen stroke renders red at (5, 1). -/
theorem claim7_witness :
    drawPath clearedCanvas (⟨[⟨3, 3⟩], "#00FF00", 2, .pen⟩ : DrawingPath) =
      clearedCanvas ∧
      redrawCanvas initState ⟨0, 0⟩ = none ∧
      redrawCanvas { initState with
        paths := [(⟨[⟨0, 0⟩, ⟨10, 0⟩], "#FF0000", 4, .pen⟩ : DrawingPath)]
        currentPath := [⟨0, 0⟩, ⟨10, 0⟩]
        currentTool := .eraser
        isDrawing := true } ⟨5, 1⟩ = none ∧
      redrawCanvas { initState with
        paths := [(⟨[⟨0, 0⟩, ⟨10, 0⟩], "#FF0000", 4, .pen⟩ : DrawingPath)] }
        ⟨5, 1⟩ = some "#FF0000" := by
  refine ⟨(claim7_render_pipeline initState ⟨0, 0⟩).1 clearedCanvas
      (⟨[⟨3, 3⟩], "#00FF00", 2, .pen⟩ : DrawingPath) (by decide),
    (claim7_render_pipeline initState ⟨0, 0⟩).2.1 (by decide)
      (Or.inl (by decide)), ?_, ?_⟩
  · exact (claim7_render_pipeline _ ⟨5, 1⟩).2.2.1 (by decide) (by decide)
  · exact (claim7_render_pipeline _ ⟨5, 1⟩).2.2.2 []
      (⟨[⟨0, 0⟩, ⟨10, 0⟩], "#FF0000", 4, .pen⟩ : DrawingPath) rfl (by decide)
      (by decide) (by decide)

/-- C9: export fills the fresh buffer with opaque white and renders the
composed surface on top: a transparent (erased or never painted) pixel of
the live surface exports as opaque white, an opaque pixel keeps its
color, and the component state is returned unchanged — export mutates
neither the drawing nor the history stacks. -/
theorem claim9_export_flattens_onto_white (s : SketchState) (p : Point) :
    (downloadImage s).2 = s ∧
      (redrawCanvas s p = none → (downloadImage s).1 p = "#ffffff") ∧
      (∀ col, redrawCanvas s p = some col → (downloadImage s).1 p = col) := by
  refine ⟨rfl, ?_, ?_⟩
  · intro h
    simp [downloadImage, h]
  · intro col h
    simp [downloadImage, h]

/-- Concrete run of C9: a red pen stroke partially erased; the erased
pixel (5, 0) exports opaque white, the surviving pixel (0, 0) exports
red, and the state is untouched. -/
theorem claim9_witness :
    (downloadImage { initState with
      paths := [(⟨[⟨0, 0⟩, ⟨10, 0⟩], "#FF0000", 4, .pen⟩ : DrawingPath),
        (⟨[⟨4, 0⟩, ⟨6, 0⟩], "#000000", 2, .eraser⟩ : DrawingPath)] }).1 ⟨5, 0⟩ =
      "#ffffff" ∧
      (downloadImage { initState with
        paths := [(⟨[⟨0, 0⟩, ⟨10, 0⟩], "#FF0000", 4, .pen⟩ : DrawingPath),
          (⟨[⟨4, 0⟩, ⟨6, 0⟩], "#000000", 2, .eraser⟩ : DrawingPath)] }).1 ⟨0, 0⟩ =
        "#FF0000" ∧
      (downloadImage { initState with
        paths := [(⟨[⟨0, 0⟩, ⟨10, 0⟩], "#FF0000", 4, .pen⟩ : DrawingPath),
          (⟨[⟨4, 0⟩, ⟨6, 0⟩], "#000000", 2, .eraser⟩ : DrawingPath)] }).2 =
        { initState with
          paths := [(⟨[⟨0, 0⟩, ⟨10, 0⟩], "#FF0000", 4, .pen⟩ : DrawingPath),
            (⟨[⟨4, 0⟩, ⟨6, 0⟩], "#000000", 2, .eraser⟩ : DrawingPath)] } :=
  ⟨(claim9_export_flattens_onto_white _ ⟨5, 0⟩).2.1 (by decide),
    (claim9_export_flattens_onto_white _ ⟨0, 0⟩).2.2 "#FF0000" (by decide),
    (claim9_export_flattens_onto_white _ ⟨5, 0⟩).1⟩

/-- C10: a committed eraser stroke always carries the color `"#000000"`
whatever color is selected, the selected color reaches only committed pen
strokes, and the in-progress stroke handed to the renderer while the
eraser is active also carries `"#000000"`. -/
theorem claim10_eraser_color_black (s : SketchState) :
    (s.currentTool = .eraser → s.isDrawing = true → s.currentPath ≠ [] →
      (stopDrawing s).paths = s.paths ++
        [(⟨s.currentPath, "#000000", s.brushSize, .eraser⟩ : DrawingPath)]) ∧
      (s.currentTool = .pen → s.isDrawing = true → s.currentPath ≠ [] →
        (stopDrawing s).paths = s.paths ++
          [(⟨s.currentPath, s.currentColor, s.brushSize, .pen⟩ : DrawingPath)]) ∧
      (s.currentTool = .eraser → 1 < s.currentPath.length →
        redrawCanvas s =
          drawPath (s.paths.foldl drawPath clearedCanvas)
            (⟨s.currentPath, "#000000", s.brushSize, .eraser⟩ : DrawingPath)) := by
  refine ⟨?_, ?_, ?_⟩
  · intro ht h1 h2
    simp [stopDrawing, h1, h2, mkCurrentDrawingPath, ht]
  · intro ht h1 h2
    simp [stopDrawing, h1, h2, mkCurrentDrawingPath, ht]
  · intro ht hlen
    simp [redrawCanvas, if_pos hlen, mkCurrentDrawingPath, ht]

/-- Concrete run of C10: with red selected and the eraser active, both
the committed stroke and the in-progress stroke handed to the renderer
carry `"#000000"`; with the pen the selected red is used. -/
theorem claim10_witness :
    (stopDrawing { initState with
      currentTool := .eraser
      currentColor := "#FF0000"
      isDrawing := true
      currentPath := [⟨0, 0⟩, ⟨1, 0⟩] }).paths =
      [(⟨[⟨0, 0⟩, ⟨1, 0⟩], "#000000", 3, .eraser⟩ : DrawingPath)] ∧
      redrawCanvas { initState with
        currentTool := .eraser
        currentColor := "#FF0000"
        isDrawing := true
        currentPath := [⟨0, 0⟩, ⟨1, 0⟩] } =
        drawPath clearedCanvas
          (⟨[⟨0, 0⟩, ⟨1, 0⟩], "#000000", 3, .eraser⟩ : DrawingPath) ∧
      (stopDrawing { initState with
        currentColor := "#FF0000"
        isDrawing := true
        currentPath := [⟨0, 0⟩, ⟨1, 0⟩] }).paths =
        [(⟨[⟨0, 0⟩, ⟨1, 0⟩], "#FF0000", 3, .pen⟩ : DrawingPath)] := by
  refine ⟨?_, ?_, ?_⟩
  · rw [(claim10_eraser_color_black { initState with
      currentTool := .eraser
      currentColor := "#FF0000"
      isDrawing := true
      currentPath := [⟨0, 0⟩, ⟨1, 0⟩] }).1 rfl rfl (by decide)]
    decide
  · exact (claim10_eraser_color_black { initState with
      currentTool := .eraser
      currentColor := "#FF0000"
      isDrawing := true
      currentPath := [⟨0, 0⟩, ⟨1, 0⟩] }).2.2 rfl (by decide)
  · rw [(claim10_eraser_color_black { initState with
      currentColor := "#FF0000"
      isDrawing := true
      currentPath := [⟨0, 0⟩, ⟨1, 0⟩] }).2.1 rfl rfl (by decide)]
    decide

end Sketchy
